import Mathlib

/-!
Verification of the balance-reconciliation and amount-normalization core of the
SmolDoclingTest repository (src/analyze_kontoauszuege_v6.py / _v7.py / _v8.py).

Monetary values are modelled as exact rationals (ℚ): the source computes with
Python `decimal.Decimal`, whose addition, subtraction, absolute value and
comparison on the magnitudes involved are exact decimal arithmetic, which ℚ
embeds faithfully.  Strings are modelled as `List Char`.
-/

/-- ASCII decimal digit test, `48 ≤ code ≤ 57` (models the digits accepted by
`decimal.Decimal` on plain ASCII literals). -/
def isDigitChar (c : Char) : Bool := 48 ≤ c.toNat && c.toNat ≤ 57

/-- Whitespace stripped by Python's `str.strip()` (space, tab, LF, VT, FF, CR). -/
def isPySpace (c : Char) : Bool :=
  c.toNat = 32 || c.toNat = 9 || c.toNat = 10 || c.toNat = 11 || c.toNat = 12 || c.toNat = 13

/-- Numeric value of a digit character. -/
def digToNat (c : Char) : ℕ := c.toNat - 48

/-- Value of a digit string read in base 10 (most significant first). -/
def natVal (l : List Char) : ℕ := l.foldl (fun n c => 10 * n + digToNat c) 0

/-- Python `s.replace('EUR', '')`: delete every (left-to-right, non-overlapping)
occurrence of the three-character substring `EUR`.
Models line 28 of `src/analyze_kontoauszuege_v8.py`. -/
def replaceEUR : List Char → List Char
  | [] => []
  | [c] => [c]
  | [c, d] => [c, d]
  | c :: d :: e :: rest =>
    if c = 'E' ∧ d = 'U' ∧ e = 'R' then replaceEUR rest
    else c :: replaceEUR (d :: e :: rest)

/-- Drop leading Python whitespace. -/
def dropSpaces : List Char → List Char
  | [] => []
  | c :: t => if isPySpace c then dropSpaces t else c :: t

/-- Python `str.strip()`: drop whitespace at both ends. -/
def stripWS (l : List Char) : List Char :=
  (dropSpaces (dropSpaces l).reverse).reverse

/-- Python `s.replace(ch, '')`: delete every occurrence of the character `a`. -/
def removeCh : List Char → Char → List Char
  | [], _ => []
  | c :: t, a => if c = a then removeCh t a else c :: removeCh t a

/-- Python `s.replace(',', '.')`. -/
def mapCommaDot : List Char → List Char
  | [] => []
  | c :: t => (if c = ',' then '.' else c) :: mapCommaDot t

/-- Python `s.count(ch)`. -/
def countCh : List Char → Char → ℕ
  | [], _ => 0
  | c :: t, a => (if c = a then 1 else 0) + countCh t a

/-- Python `s.index(ch)`: index of the first occurrence (callers guarantee the
character is present; on absence this returns the length, which no caller
relies on). -/
def idxOf1 : List Char → Char → ℕ
  | [], _ => 0
  | c :: t, a => if c = a then 0 else idxOf1 t a + 1

/-- Python `s.split('.')[1]` for a string containing the dot: the suffix after
the first `'.'` (empty when there is no dot). -/
def afterDot : List Char → List Char
  | [] => []
  | c :: t => if c = '.' then t else afterDot t

/-- The preprocessing of `parse_german_amount`
(`src/analyze_kontoauszuege_v8.py:28`):
`.replace('EUR', '').strip().replace('+', '').replace(' ', '')`. -/
def cleanAmount (l : List Char) : List Char :=
  removeCh (removeCh (stripWS (replaceEUR l)) '+') ' '

/-- The format auto-detection of `parse_german_amount`
(`src/analyze_kontoauszuege_v8.py:35-68`), faithful to the branch structure:
one comma and at most one dot → German (dot-before-comma: drop dots, comma
becomes decimal point; otherwise treat as English and drop the comma); one dot
and no comma → decide by the length of the fractional run (2 → already
decimal, 3 → thousands separator); more than one dot → German grouping.
The Python guard `len(parts) == 2` is automatically true when the string
contains exactly one dot, so it is not repeated here. -/
def transformAmount (s : List Char) : List Char :=
  if countCh s ',' = 1 ∧ countCh s '.' ≤ 1 then
    if countCh s '.' = 1 then
      if idxOf1 s '.' < idxOf1 s ',' then mapCommaDot (removeCh s '.')
      else removeCh s ','
    else mapCommaDot s
  else if countCh s '.' = 1 ∧ countCh s ',' = 0 then
    if (afterDot s).length = 2 then s
    else if (afterDot s).length = 3 then removeCh s '.'
    else s
  else if 1 < countCh s '.' then mapCommaDot (removeCh s '.')
  else s

/-- Longest digit prefix (tokenization step of a plain decimal literal). -/
def takeDigits : List Char → List Char
  | [] => []
  | c :: t => if isDigitChar c then c :: takeDigits t else []

/-- What remains after the longest digit prefix. -/
def dropDigits : List Char → List Char
  | [] => []
  | c :: t => if isDigitChar c then dropDigits t else c :: t

/-- Second stage of the model of `decimal.Decimal(s)` on a plain (exponent-free)
literal: given the integer-digit prefix `ip` and the remainder `rest`, the
literal is valid iff the remainder is empty (and there was at least one digit)
or is a dot followed by digits only (with at least one digit overall). -/
def parseParts (ip rest : List Char) : Option ℚ :=
  match rest with
  | [] => if ip = [] then none else some ((natVal ip : ℚ))
  | c :: fr =>
    if c = '.' ∧ (∀ d ∈ fr, isDigitChar d = true) ∧ ¬(ip = [] ∧ fr = []) then
      some ((natVal ip : ℚ) + (natVal fr : ℚ) / 10 ^ fr.length)
    else none

/-- Model of `decimal.Decimal` on an unsigned plain literal. -/
def parseUnsignedDec (l : List Char) : Option ℚ :=
  parseParts (takeDigits l) (dropDigits l)

/-- Model of `decimal.Decimal(s)` on a plain (exponent-free, non-special)
decimal literal: optional single leading sign, digits, optional single dot.
`none` models the `InvalidOperation` exception. -/
def parseDec (l : List Char) : Option ℚ :=
  match l with
  | [] => parseUnsignedDec []
  | c :: rest =>
    if c = '-' then Option.map (fun q : ℚ => -q) (parseUnsignedDec rest)
    else if c = '+' then parseUnsignedDec rest
    else parseUnsignedDec (c :: rest)

/-- `parse_german_amount` (`src/analyze_kontoauszuege_v8.py:23-74`), string
branch: preprocess, auto-detect the grouping convention, then construct the
decimal; an unparseable result degrades to `0` (the `except` branch at
line 72-74, which also logs a warning). -/
def parse_german_amount (s : List Char) : ℚ :=
  (parseDec (transformAmount (cleanAmount s))).getD 0

/-- Python lowercase mapping (`str.lower`) for every character that occurs in
the classifier's descriptions and keywords: ASCII capitals and the German
capital umlauts; every other character is left unchanged. -/
def pyLowerChar (c : Char) : Char :=
  if c = 'A' then 'a' else if c = 'B' then 'b' else if c = 'C' then 'c'
  else if c = 'D' then 'd' else if c = 'E' then 'e' else if c = 'F' then 'f'
  else if c = 'G' then 'g' else if c = 'H' then 'h' else if c = 'I' then 'i'
  else if c = 'J' then 'j' else if c = 'K' then 'k' else if c = 'L' then 'l'
  else if c = 'M' then 'm' else if c = 'N' then 'n' else if c = 'O' then 'o'
  else if c = 'P' then 'p' else if c = 'Q' then 'q' else if c = 'R' then 'r'
  else if c = 'S' then 's' else if c = 'T' then 't' else if c = 'U' then 'u'
  else if c = 'V' then 'v' else if c = 'W' then 'w' else if c = 'X' then 'x'
  else if c = 'Y' then 'y' else if c = 'Z' then 'z'
  else if c = 'Ä' then 'ä' else if c = 'Ö' then 'ö' else if c = 'Ü' then 'ü'
  else c

/-- Python `description.lower()`. -/
def lowerL (l : List Char) : List Char := l.map pyLowerChar

/-- Boolean prefix test used by the substring search. -/
def isPrefixL : List Char → List Char → Bool
  | [], _ => true
  | _ :: _, [] => false
  | a :: as, b :: bs => a = b && isPrefixL as bs

/-- Python's substring operator `needle in haystack`. -/
def containsL : List Char → List Char → Bool
  | [], needle => needle.isEmpty
  | c :: t, needle => isPrefixL needle (c :: t) || containsL t needle

/-- `classify_transaction_type` (`src/analyze_kontoauszuege_v7.py:94-126`,
identical in `src/analyze_kontoauszuege_v6.py:52-84`): an ordered priority
list of keyword rules matched against `description.lower()`, except that the
buy/sell markers `'vv'` and `'kv'` are matched against the original,
non-lowercased description; the final fallback is sign-based. -/
def classify_transaction_type (description : List Char) (betrag : ℚ) : String :=
  if containsL (lowerL description) "wertpapierabrechnung".toList
      || containsL (lowerL description) "wertp.".toList then
    if containsL description "vv".toList
        || containsL (lowerL description) "verkauf".toList then "Wertpapierverkauf"
    else if containsL description "kv".toList
        || containsL (lowerL description) "kauf".toList then "Wertpapierkauf"
    else "Wertpapierabrechnung"
  else if containsL (lowerL description) "durchlfd".toList
      && containsL (lowerL description) "sperrbetr".toList then "Wertpapier-Sperrbeträge"
  else if containsL (lowerL description) "überweisung".toList
      || containsL (lowerL description) "übertrag".toList then
    if betrag < 0 then "Überweisung ausgehend" else "Überweisung eingehend"
  else if containsL (lowerL description) "gutschriftseingang".toList then "Gutschrift"
  else if containsL (lowerL description) "lastschr".toList then "Lastschrift"
  else if containsL (lowerL description) "depotentgelt".toList then "Depotentgelt"
  else if containsL (lowerL description) "entgeltabrechnung".toList then "Entgeltabrechnung"
  else if containsL (lowerL description) "abrechnung".toList then
    if containsL (lowerL description) "verwahrentgelt".toList then "Verwahrentgelt"
    else "Abrechnung"
  else if 0 < betrag then "Eingang"
  else "Ausgang"

/-- Result record of the per-statement Python reconciliation
(`src/analyze_kontoauszuege_v8.py:340-350`), numeric fields only. -/
structure ReconResult where
  transaktionen_summe : ℚ
  berechneter_endsaldo : ℚ
  differenz : ℚ
  validierung_ok : Bool
deriving DecidableEq

/-- The running sum `summe = Decimal('0'); for t: summe += betrag`
(`src/analyze_kontoauszuege_v8.py:321-331`). -/
def sumAmounts (l : List ℚ) : ℚ := l.foldl (· + ·) 0

/-- Numeric core of `validate_with_python_v8`
(`src/analyze_kontoauszuege_v8.py:289-350`): given the opening balance, the
document-sourced closing balance and the list of transaction amounts (each
already normalized, as the surrounding dict plumbing guarantees), sum the
transactions, compute the expected closing balance, and compare against the
document's closing balance with a one-cent tolerance.  The same arithmetic is
performed by `validate_with_python` in `src/analyze_kontoauszuege_v7.py:364-382`. -/
def validate_with_python_v8 (anfangssaldo endsaldo : ℚ) (betraege : List ℚ) : ReconResult :=
  let summe := sumAmounts betraege
  let berechneter_saldo := anfangssaldo + summe
  let differenz := |berechneter_saldo - endsaldo|
  { transaktionen_summe := summe
    berechneter_endsaldo := berechneter_saldo
    differenz := differenz
    validierung_ok := decide (differenz < 1 / 100) }

/-- One statement period as consumed by the continuity check: its
document-sourced opening balance (`anfangssaldo`) and closing balance
(`endsaldo_aus_dokument`), both already normalized. -/
structure Periode where
  anfangssaldo : ℚ
  endsaldo : ℚ
deriving DecidableEq

/-- One pairwise continuity record (`src/analyze_kontoauszuege_v8.py:374-381`),
numeric fields only. -/
structure ContCheck where
  endsaldo_von : ℚ
  anfangssaldo_nach : ℚ
  differenz : ℚ
  kontinuitaet_ok : Bool
deriving DecidableEq

/-- The body of the loop of `check_continuity_v8`
(`src/analyze_kontoauszuege_v8.py:363-381`): compare one statement's closing
balance with the next statement's opening balance under the one-cent
tolerance.  `check_continuity` in `src/analyze_kontoauszuege_v7.py:391-428`
performs the same comparison in `Decimal`. -/
def contPair (x y : Periode) : ContCheck :=
  { endsaldo_von := x.endsaldo
    anfangssaldo_nach := y.anfangssaldo
    differenz := |x.endsaldo - y.anfangssaldo|
    kontinuitaet_ok := decide (|x.endsaldo - y.anfangssaldo| < 1 / 100) }

/-- The loop `for i in range(len(analysen) - 1)` of `check_continuity_v8`:
one check per adjacent pair of the input sequence. -/
def contChecks : List Periode → List ContCheck
  | x :: y :: rest => contPair x y :: contChecks (y :: rest)
  | _ => []

/-- `check_continuity_v8` (`src/analyze_kontoauszuege_v8.py:359-386`): the list
of pairwise checks together with `alle_ok = all(...)`. -/
def check_continuity_v8 (analysen : List Periode) : List ContCheck × Bool :=
  (contChecks analysen, (contChecks analysen).all (fun c => c.kontinuitaet_ok))

/-- Result record of `validate_number_conversion`
(`src/analyze_kontoauszuege_v8.py:77-97`), numeric fields only. -/
structure ConvAudit where
  python_converted : ℚ
  conversion_match : Bool
  difference : ℚ
deriving DecidableEq

/-- `validate_number_conversion` (`src/analyze_kontoauszuege_v8.py:77-97`):
re-derive the trusted value from the original string with
`parse_german_amount` and compare it against the upstream-claimed numeric
value with a one-cent tolerance. -/
def validate_number_conversion (original : List Char) (converted : ℚ) : ConvAudit :=
  let python_converted := parse_german_amount original
  let m := decide (|python_converted - converted| < 1 / 100)
  { python_converted := python_converted
    conversion_match := m
    difference := if m then 0 else |python_converted - converted| }

/-- The lowercase map is idempotent: lowering an already-lowered character
changes nothing. -/
lemma pyLowerChar_idem (c : Char) : pyLowerChar (pyLowerChar c) = pyLowerChar c := by
  by_cases hA : c = 'A'
  · subst hA; decide
  by_cases hB : c = 'B'
  · subst hB; decide
  by_cases hC : c = 'C'
  · subst hC; decide
  by_cases hD : c = 'D'
  · subst hD; decide
  by_cases hE : c = 'E'
  · subst hE; decide
  by_cases hF : c = 'F'
  · subst hF; decide
  by_cases hG : c = 'G'
  · subst hG; decide
  by_cases hH : c = 'H'
  · subst hH; decide
  by_cases hI : c = 'I'
  · subst hI; decide
  by_cases hJ : c = 'J'
  · subst hJ; decide
  by_cases hK : c = 'K'
  · subst hK; decide
  by_cases hL : c = 'L'
  · subst hL; decide
  by_cases hM : c = 'M'
  · subst hM; decide
  by_cases hN : c = 'N'
  · subst hN; decide
  by_cases hO : c = 'O'
  · subst hO; decide
  by_cases hP : c = 'P'
  · subst hP; decide
  by_cases hQ : c = 'Q'
  · subst hQ; decide
  by_cases hR : c = 'R'
  · subst hR; decide
  by_cases hS : c = 'S'
  · subst hS; decide
  by_cases hT : c = 'T'
  · subst hT; decide
  by_cases hU : c = 'U'
  · subst hU; decide
  by_cases hV : c = 'V'
  · subst hV; decide
  by_cases hW : c = 'W'
  · subst hW; decide
  by_cases hX : c = 'X'
  · subst hX; decide
  by_cases hY : c = 'Y'
  · subst hY; decide
  by_cases hZ : c = 'Z'
  · subst hZ; decide
  by_cases hAe : c = 'Ä'
  · subst hAe; decide
  by_cases hOe : c = 'Ö'
  · subst hOe; decide
  by_cases hUe : c = 'Ü'
  · subst hUe; decide
  simp [pyLowerChar, hA, hB, hC, hD, hE, hF, hG, hH, hI, hJ, hK, hL, hM, hN, hO, hP, hQ, hR, hS, hT, hU, hV, hW, hX, hY, hZ, hAe, hOe, hUe]

/-- Lowercasing a string twice equals lowercasing it once. -/
lemma lowerL_idem (d : List Char) : lowerL (lowerL d) = lowerL d := by
  simp only [lowerL, List.map_map]
  rw [show pyLowerChar ∘ pyLowerChar = pyLowerChar from funext pyLowerChar_idem]

/-- Bridge between the `Bool` comparisons of the source and their
propositional reading. -/
lemma decide_iff (p : Prop) [Decidable p] : decide p = true ↔ p := by simp

/-- The source's running sum (`foldl`) equals the mathematical list sum. -/
lemma foldl_add_eq (l : List ℚ) : ∀ a : ℚ, l.foldl (· + ·) a = a + l.sum := by
  induction l with
  | nil => intro a; simp
  | cons x t ih => intro a; simp only [List.foldl_cons, ih, List.sum_cons]; ring

/-- `sumAmounts` equals the mathematical list sum. -/
lemma sumAmounts_eq (l : List ℚ) : sumAmounts l = l.sum := by
  simp [sumAmounts, foldl_add_eq]

/-- Evaluation of the normalizer on the auditor's running example. -/
lemma pga_m23700 : parse_german_amount "-23.700,00".toList = -23700 := by
  have h1 : transformAmount (cleanAmount "-23.700,00".toList) = "-23700.00".toList := by decide
  rw [parse_german_amount, h1]
  show (parseDec ('-' :: "23700.00".toList)).getD 0 = -23700
  rw [parseDec]
  simp +decide [parseUnsignedDec, parseParts, takeDigits, dropDigits, natVal, digToNat]

/-- Claim C1 — counterexample. The claim states that reconciliation reports
the discrepancy as the signed value `closing − computed_closing`; the source
(`abs(berechneter_saldo - endsaldo)`, `src/analyze_kontoauszuege_v8.py:335`)
reports the absolute value, so at opening 0, document closing −1 and no
entries the reported `differenz` is 1 while the signed value is −1. -/
theorem reconcile_differenz_unsigned_cex :
    (validate_with_python_v8 0 (-1) []).differenz ≠
      (-1 : ℚ) - (validate_with_python_v8 0 (-1) []).berechneter_endsaldo := by
  norm_num [validate_with_python_v8, sumAmounts]

/-- Claim C1 (amended): for every statement period with opening balance `o`,
document-sourced closing balance `c` and entries list `es`, the Python
reconciliation returns `entries_sum` equal to the exact sum of `es`,
`computed_closing = o + entries_sum`, the reported discrepancy equal to the
absolute value `|c − computed_closing|` (not the signed difference), and
`is_reconciled = true` exactly when `|c − computed_closing| < 0.01`. -/
theorem reconcile_v8_spec (o c : ℚ) (es : List ℚ) :
    (validate_with_python_v8 o c es).transaktionen_summe = es.sum ∧
    (validate_with_python_v8 o c es).berechneter_endsaldo = o + es.sum ∧
    (validate_with_python_v8 o c es).differenz = |c - (o + es.sum)| ∧
    ((validate_with_python_v8 o c es).validierung_ok = true ↔
      |c - (o + es.sum)| < 1 / 100) := by
  refine ⟨?_, ?_, ?_, ?_⟩
  · simp [validate_with_python_v8, sumAmounts_eq]
  · simp [validate_with_python_v8, sumAmounts_eq]
  · simp only [validate_with_python_v8, sumAmounts_eq]
    exact abs_sub_comm _ _
  · simp only [validate_with_python_v8, sumAmounts_eq, decide_iff]
    rw [abs_sub_comm]

/-- Claim C7 — counterexample. The claim states that on an empty entries list
`is_reconciled` holds iff `opening = closing`; the source keeps the one-cent
tolerance, so opening 0 with document closing 0.005 is reported as reconciled
although the balances differ. -/
theorem reconcile_empty_tolerance_cex :
    (validate_with_python_v8 0 (1 / 200) []).validierung_ok = true ∧
      (0 : ℚ) ≠ 1 / 200 := by
  constructor
  · rw [validate_with_python_v8]
    simp only [decide_iff]
    have h : |(0 : ℚ) + sumAmounts [] - 1 / 200| = 1 / 200 := by
      rw [show (0 : ℚ) + sumAmounts [] - 1 / 200 = -(1 / 200) by norm_num [sumAmounts]]
      rw [abs_neg, abs_of_nonneg]
      norm_num
    rw [h]
    norm_num
  · norm_num

/-- Claim C7 (amended): for every statement period whose entries list is
empty, the reconciliation returns `computed_closing` equal to the opening
balance exactly, and `is_reconciled = true` iff the opening and closing
balances agree within the one-cent tolerance, `|closing − opening| < 0.01`
(not: iff they are exactly equal). -/
theorem reconcile_empty_spec (o c : ℚ) :
    (validate_with_python_v8 o c []).berechneter_endsaldo = o ∧
    ((validate_with_python_v8 o c []).validierung_ok = true ↔ |c - o| < 1 / 100) := by
  constructor
  · simp [validate_with_python_v8, sumAmounts]
  · simp only [validate_with_python_v8, decide_iff]
    rw [show o + sumAmounts [] - c = -(c - o) by simp [sumAmounts]]
    rw [abs_neg]

/-- Claim C8: reconciliation is order-independent — permuting the entries list
changes neither the computed sum, nor the computed closing balance, nor the
reported discrepancy, nor the `is_reconciled` flag (the whole result record
is unchanged). -/
theorem reconcile_perm_invariant (o c : ℚ) (es es' : List ℚ) (h : es.Perm es') :
    validate_with_python_v8 o c es = validate_with_python_v8 o c es' := by
  simp only [validate_with_python_v8, sumAmounts_eq, h.sum_eq]

/-- Witness for C8 at a concrete permutation. -/
theorem reconcile_perm_invariant_witness :
    validate_with_python_v8 1 4 [1, 2] = validate_with_python_v8 1 4 [2, 1] :=
  reconcile_perm_invariant 1 4 [1, 2] [2, 1] (List.Perm.swap 2 1 [])

/-- Claim C3 — counterexample. The claim states that each continuity check
carries the signed discrepancy `left.closing − right.opening`; the source
(`abs(current_end - next_start)`, `src/analyze_kontoauszuege_v8.py:371`)
reports the absolute value: with left closing 0 and right opening 1 the
reported `differenz` is 1, not the signed 0 − 1 = −1. -/
theorem continuity_differenz_unsigned_cex :
    (check_continuity_v8 [⟨0, 0⟩, ⟨1, 0⟩]).1 = [contPair ⟨0, 0⟩ ⟨1, 0⟩] ∧
      (contPair (⟨0, 0⟩ : Periode) ⟨1, 0⟩).differenz ≠ (0 : ℚ) - 1 := by
  refine ⟨rfl, ?_⟩
  norm_num [contPair]

/-- Claim C3 (amended): for every ordered sequence of statement periods the
continuity checker produces exactly one check per sequence-adjacent pair
(i, i+1) — the check list is the pairing of the sequence with its own tail —
each check carrying `endsaldo_von = left.closing`, `anfangssaldo_nach =
right.opening`, the discrepancy as the absolute value
`|left.closing − right.opening|` (not the signed difference), and
`is_continuous = true` iff that absolute discrepancy is below the one-cent
tolerance; the batch flag `alle_ok` is the conjunction of all pairwise
flags. -/
theorem continuity_v8_spec (l : List Periode) :
    (check_continuity_v8 l).1 = (l.zip l.tail).map (fun p => contPair p.1 p.2) ∧
    (∀ x y : Periode,
      (contPair x y).endsaldo_von = x.endsaldo ∧
      (contPair x y).anfangssaldo_nach = y.anfangssaldo ∧
      (contPair x y).differenz = |x.endsaldo - y.anfangssaldo| ∧
      ((contPair x y).kontinuitaet_ok = true ↔
        |x.endsaldo - y.anfangssaldo| < 1 / 100)) ∧
    ((check_continuity_v8 l).2 = true ↔
      ∀ ch ∈ (check_continuity_v8 l).1, ch.kontinuitaet_ok = true) := by
  refine ⟨?_, fun x y => ⟨rfl, rfl, rfl, decide_iff _⟩, ?_⟩
  · show contChecks l = _
    induction l with
    | nil => rfl
    | cons x t ih =>
      cases t with
      | nil => rfl
      | cons y r =>
        simp only [contChecks, ih, List.tail_cons, List.zip_cons_cons, List.map_cons]
  · show (contChecks l).all _ = true ↔ _
    simp [check_continuity_v8, List.all_eq_true]

/-- Claim C10: with fewer than two statement periods the loop
`for i in range(len(analysen) - 1)` runs zero times, so the continuity
checker returns an empty check list and `alle_ok = all([]) = True`. -/
theorem continuity_short_list (l : List Periode) (h : l.length < 2) :
    (check_continuity_v8 l).1 = [] ∧ (check_continuity_v8 l).2 = true := by
  cases l with
  | nil => exact ⟨rfl, rfl⟩
  | cons x t =>
    cases t with
    | nil => exact ⟨rfl, rfl⟩
    | cons y r =>
      exfalso
      simp only [List.length_cons] at h
      omega

/-- Witness for C10 on a concrete one-statement batch. -/
theorem continuity_short_list_witness :
    ([⟨5, 7⟩] : List Periode).length < 2 ∧
      (check_continuity_v8 [⟨5, 7⟩]).1 = [] ∧ (check_continuity_v8 [⟨5, 7⟩]).2 = true :=
  ⟨by norm_num, continuity_short_list [⟨5, 7⟩] (by norm_num)⟩

/-- Claim C4: the conversion auditor re-derives the trusted value with the
normalizer and accepts iff the upstream-claimed number is within one cent of
it; on the running example, `"-23.700,00"` with claimed −23700.00 matches,
while claimed −23.7 is rejected with trusted value −23700.00. -/
theorem audit_spec :
    (∀ (s : List Char) (n : ℚ),
      (validate_number_conversion s n).python_converted = parse_german_amount s ∧
      ((validate_number_conversion s n).conversion_match = true ↔
        |parse_german_amount s - n| < 1 / 100)) ∧
    (validate_number_conversion "-23.700,00".toList (-23700)).conversion_match = true ∧
    (validate_number_conversion "-23.700,00".toList (-237 / 10)).conversion_match = false ∧
    (validate_number_conversion "-23.700,00".toList (-237 / 10)).python_converted = -23700 := by
  refine ⟨fun s n => ⟨rfl, decide_iff _⟩, ?_, ?_, ?_⟩
  · rw [validate_number_conversion]
    simp only [decide_iff, pga_m23700]
    rw [show (-23700 : ℚ) - -23700 = 0 by norm_num]
    rw [abs_zero]
    norm_num
  · rw [validate_number_conversion]
    simp only [decide_eq_false_iff_not, pga_m23700]
    rw [show (-23700 : ℚ) - -237 / 10 = -(236763 / 10) by norm_num]
    rw [abs_neg, abs_of_nonneg (by norm_num : (0 : ℚ) ≤ 236763 / 10)]
    norm_num
  · rw [validate_number_conversion]
    simp only [pga_m23700]

/-- Claim C6: the normalizer is total — on every input string it either
returns the value of a successfully parsed literal or, when the cleaned
string parses under no detected convention, returns exactly the zero value
(it never raises); two concretely unparseable inputs evaluate to 0. -/
theorem normalize_total_zero_fallback :
    (∀ s : List Char,
      (∃ v, parseDec (transformAmount (cleanAmount s)) = some v ∧
        parse_german_amount s = v) ∨
      (parseDec (transformAmount (cleanAmount s)) = none ∧
        parse_german_amount s = 0)) ∧
    parse_german_amount "abc".toList = 0 ∧
    parse_german_amount "12,34,56".toList = 0 := by
  refine ⟨fun s => ?_, by decide, by decide⟩
  cases h : parseDec (transformAmount (cleanAmount s)) with
  | none => exact Or.inr ⟨rfl, by simp [parse_german_amount, h]⟩
  | some v => exact Or.inl ⟨v, rfl, by simp [parse_german_amount, h]⟩

/-- Claim C5 — counterexample. Two parts of the claim fail on the source
classifier: a description containing only `"Wertpapierabrechnung"` with the
buy amount −101046.00 is classified as the generic security-statement
category `"Wertpapierabrechnung"` (the sign is never consulted, only explicit
buy/sell markers), not as a purchase; and a description containing only
`"Verwahrentgelt"` is not classified as the custody-fee category at all (the
rule additionally requires the substring `"abrechnung"`), falling through to
the sign-based fallback instead. -/
theorem classify_keyword_cex :
    classify_transaction_type "Wertpapierabrechnung".toList (-101046) ≠ "Wertpapierkauf" ∧
    classify_transaction_type "Verwahrentgelt".toList (-11) = "Ausgang" ∧
    "Ausgang" ≠ "Verwahrentgelt" := by
  refine ⟨by decide, by decide, by decide⟩

/-- Claim C5 (amended): in the source classifier a description containing
`"Wertpapierabrechnung"` is assigned the sale/purchase category only when an
explicit sell marker (`"vv"` case-sensitively, or `"verkauf"`) or buy marker
(`"kv"` case-sensitively, or `"kauf"`) is present — with no marker the
generic security-statement category is returned for every amount, including
−101046.00; a description containing `"Überweisung"` (and no
higher-priority keyword) with amount +68700.16 is classified as an incoming
transfer; and the custody-fee category is returned, regardless of the
amount's sign, only for descriptions that contain both `"abrechnung"` and
`"verwahrentgelt"` (and no higher-priority keyword) — `"Verwahrentgelt"`
alone falls through to the sign-based fallback. -/
theorem classify_amended_spec :
    (∀ a : ℚ, classify_transaction_type "Wertpapierabrechnung".toList a
      = "Wertpapierabrechnung") ∧
    classify_transaction_type "Wertpapierabrechnung Verkauf".toList (-101046)
      = "Wertpapierverkauf" ∧
    classify_transaction_type "Wertpapierabrechnung Kauf".toList (-101046)
      = "Wertpapierkauf" ∧
    classify_transaction_type "Überweisung".toList (6870016 / 100)
      = "Überweisung eingehend" ∧
    (∀ a : ℚ, classify_transaction_type "Abrechnung Verwahrentgelt".toList a
      = "Verwahrentgelt") ∧
    classify_transaction_type "Verwahrentgelt".toList (-11) = "Ausgang" ∧
    classify_transaction_type "Verwahrentgelt".toList 11 = "Eingang" := by
  refine ⟨fun a => rfl, by decide, by decide, ?_, fun a => rfl, by decide, by decide⟩
  have h : ¬((6870016 / 100 : ℚ) < 0) := by norm_num
  simp +decide [classify_transaction_type, h]

/-- Claim C9 — counterexample. Classification is not invariant under changes
of letter case: the buy/sell markers `'vv'` and `'kv'` are matched
case-sensitively against the original description
(`src/analyze_kontoauszuege_v7.py:101-104`), so `"Wertpapierabrechnung VV"`
is classified as a generic security statement while its lowercase variant is
classified as a sale. -/
theorem classify_case_cex :
    classify_transaction_type "Wertpapierabrechnung VV".toList 0 ≠
      classify_transaction_type (lowerL "Wertpapierabrechnung VV".toList) 0 := by
  decide

/-- Claim C9 (amended): the keyword rules are evaluated as an ordered
priority list on the lowercased description (first matching rule wins), so
classification is invariant under lowercasing the description provided the
two case-sensitive marker tests (`"vv"` and `"kv"` against the original
string) are unaffected by the case change; full case-insensitivity fails
exactly on those markers. -/
theorem classify_lower_invariant (d : List Char) (a : ℚ)
    (h1 : containsL d "vv".toList = containsL (lowerL d) "vv".toList)
    (h2 : containsL d "kv".toList = containsL (lowerL d) "kv".toList) :
    classify_transaction_type d a = classify_transaction_type (lowerL d) a := by
  simp only [classify_transaction_type, lowerL_idem, h1, h2]

/-- Witness for C9 on a concrete all-capitals description. -/
theorem classify_lower_invariant_witness :
    classify_transaction_type "WERTPAPIERABRECHNUNG".toList 5 =
      classify_transaction_type (lowerL "WERTPAPIERABRECHNUNG".toList) 5 :=
  classify_lower_invariant "WERTPAPIERABRECHNUNG".toList 5 (by decide) (by decide)

/-- A digit-only string (every character is an ASCII digit). -/
def allDigits (l : List Char) : Prop := ∀ c ∈ l, isDigitChar c = true

/-- Rendering of an optional leading sign (at most one of the two is set). -/
def signRender (neg plus : Bool) : List Char :=
  if neg then ['-'] else if plus then ['+'] else []

/-- German thousands rendering of the digit groups after the leading group:
a `'.'` separator in front of each group. -/
def dotJoin : List (List Char) → List Char
  | [] => []
  | g :: gs => '.' :: (g ++ dotJoin gs)

/-- Concatenation of the digit groups (grouping separators removed). -/
def catGroups : List (List Char) → List Char
  | [] => []
  | g :: gs => g ++ catGroups gs

/-- A German-format monetary string: optional sign, leading digit group,
further `'.'`-separated digit groups, `','` as decimal separator, fractional
digits, and an optional trailing `EUR` marker. -/
def germanRender (neg plus eur : Bool) (g0 : List Char) (gs : List (List Char))
    (frac : List Char) : List Char :=
  (signRender neg plus ++ g0 ++ dotJoin gs ++ ',' :: frac) ++
    (if eur then ['E', 'U', 'R'] else [])

/-- The corresponding American-style literal: optional `'-'`, all integer
digits without grouping, `'.'` as decimal separator, fractional digits. -/
def americanRender (neg : Bool) (ds frac : List Char) : List Char :=
  (if neg then ['-'] else []) ++ ds ++ '.' :: frac

/-- The exact decimal value denoted by integer digits `ds` and fractional
digits `frac` with sign `neg`. -/
def decValue (neg : Bool) (ds frac : List Char) : ℚ :=
  (if neg then -1 else 1) * ((natVal ds : ℚ) + (natVal frac : ℚ) / 10 ^ frac.length)

/-- A digit character is none of the separator, sign, marker or whitespace
characters handled by the normalizer. -/
lemma digit_char_facts {c : Char} (h : isDigitChar c = true) :
    c ≠ '.' ∧ c ≠ ',' ∧ c ≠ '+' ∧ c ≠ '-' ∧ c ≠ 'E' ∧ isPySpace c = false := by
  have hv : 48 ≤ c.toNat ∧ c.toNat ≤ 57 := by
    simpa [isDigitChar] using h
  refine ⟨?_, ?_, ?_, ?_, ?_, ?_⟩
  · intro hc; subst hc; revert h; decide
  · intro hc; subst hc; revert h; decide
  · intro hc; subst hc; revert h; decide
  · intro hc; subst hc; revert h; decide
  · intro hc; subst hc; revert h; decide
  · simp only [isPySpace, Bool.or_eq_false_iff, decide_eq_false_iff_not]
    omega

/-- `removeCh` distributes over append. -/
lemma removeCh_append (a : Char) : ∀ x y : List Char,
    removeCh (x ++ y) a = removeCh x a ++ removeCh y a := by
  intro x y
  induction x with
  | nil => rfl
  | cons c t ih =>
    simp only [List.cons_append, removeCh, List.append_eq, ih]
    split <;> rfl

/-- `removeCh` is the identity on strings without the removed character. -/
lemma removeCh_id {a : Char} : ∀ {x : List Char}, (∀ c ∈ x, c ≠ a) →
    removeCh x a = x := by
  intro x
  induction x with
  | nil => intro _; rfl
  | cons c t ih =>
    intro h
    rw [removeCh, if_neg (h c (List.mem_cons_self c t)), ih fun d hd => h d (List.mem_cons_of_mem c hd)]

/-- `mapCommaDot` distributes over append. -/
lemma mapCommaDot_append : ∀ x y : List Char,
    mapCommaDot (x ++ y) = mapCommaDot x ++ mapCommaDot y := by
  intro x y
  induction x with
  | nil => rfl
  | cons c t ih => simp only [List.cons_append, mapCommaDot, List.append_eq, ih]

/-- `mapCommaDot` is the identity on strings without a comma. -/
lemma mapCommaDot_id : ∀ {x : List Char}, (∀ c ∈ x, c ≠ ',') →
    mapCommaDot x = x := by
  intro x
  induction x with
  | nil => intro _; rfl
  | cons c t ih =>
    intro h
    rw [mapCommaDot, if_neg (h c (List.mem_cons_self c t)),
      ih fun d hd => h d (List.mem_cons_of_mem c hd)]

/-- `countCh` distributes over append. -/
lemma countCh_append (a : Char) : ∀ x y : List Char,
    countCh (x ++ y) a = countCh x a + countCh y a := by
  intro x y
  induction x with
  | nil => simp [countCh]
  | cons c t ih =>
    simp only [List.cons_append, countCh, List.append_eq, ih]
    omega

/-- `countCh` is zero on strings without the counted character. -/
lemma countCh_zero {a : Char} : ∀ {x : List Char}, (∀ c ∈ x, c ≠ a) →
    countCh x a = 0 := by
  intro x
  induction x with
  | nil => intro _; rfl
  | cons c t ih =>
    intro h
    rw [countCh, if_neg (h c (List.mem_cons_self c t)),
      ih fun d hd => h d (List.mem_cons_of_mem c hd)]

/-- First-occurrence index past a prefix that misses the character. -/
lemma idxOf1_append (a : Char) : ∀ (x y : List Char), (∀ c ∈ x, c ≠ a) →
    idxOf1 (x ++ y) a = x.length + idxOf1 y a := by
  intro x y
  induction x with
  | nil => intro _; simp [idxOf1]
  | cons c t ih =>
    intro h
    simp only [List.cons_append, idxOf1, List.append_eq, if_neg (h c (List.mem_cons_self c t)),
      ih fun d hd => h d (List.mem_cons_of_mem c hd), List.length_cons]
    omega

/-- `dropSpaces` is the identity on whitespace-free strings. -/
lemma dropSpaces_id : ∀ {x : List Char}, (∀ c ∈ x, isPySpace c = false) →
    dropSpaces x = x := by
  intro x h
  cases x with
  | nil => rfl
  | cons c t =>
    rw [dropSpaces, if_neg]
    rw [h c (List.mem_cons_self c t)]
    simp

/-- `stripWS` is the identity on whitespace-free strings. -/
lemma stripWS_id {x : List Char} (h : ∀ c ∈ x, isPySpace c = false) :
    stripWS x = x := by
  rw [stripWS, dropSpaces_id h,
    dropSpaces_id fun c hc => h c (List.mem_reverse.mp hc), List.reverse_reverse]

/-- `replaceEUR` is the identity on strings without the character `E`. -/
lemma replaceEUR_id : ∀ {x : List Char}, (∀ c ∈ x, c ≠ 'E') →
    replaceEUR x = x := by
  intro x
  induction x with
  | nil => intro _; rfl
  | cons c t ih =>
    intro h
    cases t with
    | nil => rfl
    | cons d t2 =>
      cases t2 with
      | nil => rfl
      | cons e t3 =>
        rw [replaceEUR, if_neg fun hx => h c (List.mem_cons_self c _) hx.1]
        rw [ih fun z hz => h z (List.mem_cons_of_mem c hz)]

/-- Appending the marker `EUR` to an `E`-free string and running `replaceEUR`
removes exactly the marker. -/
lemma replaceEUR_append_eur : ∀ {x : List Char}, (∀ c ∈ x, c ≠ 'E') →
    replaceEUR (x ++ ['E', 'U', 'R']) = x := by
  intro x
  induction x with
  | nil => intro _; decide
  | cons c t ih =>
    intro h
    cases t with
    | nil =>
      simp only [List.cons_append, List.nil_append]
      rw [replaceEUR, if_neg fun hx => absurd hx.2.1 (by decide)]
      rw [show replaceEUR ['E', 'U', 'R'] = [] from rfl]
    | cons d t2 =>
      cases t2 with
      | nil =>
        simp only [List.cons_append, List.nil_append]
        rw [replaceEUR, if_neg fun hx => absurd hx.2.2 (by decide)]
        have := ih fun z hz => h z (List.mem_cons_of_mem c hz)
        simp only [List.cons_append, List.nil_append] at this
        rw [this]
      | cons e t3 =>
        simp only [List.cons_append]
        rw [replaceEUR, if_neg fun hx => h c (List.mem_cons_self c _) hx.1]
        have := ih fun z hz => h z (List.mem_cons_of_mem c hz)
        simp only [List.cons_append] at this
        rw [this]

/-- Tokenization of a plain literal: the digit prefix of `ds ++ '.' :: fr`
is `ds` when `ds` is all digits. -/
lemma takeDigits_append {ds : List Char} (fr : List Char) (h : allDigits ds) :
    takeDigits (ds ++ '.' :: fr) = ds := by
  induction ds with
  | nil =>
    rw [List.nil_append, takeDigits, if_neg (by decide : ¬(isDigitChar '.' = true))]
  | cons c t ih =>
    rw [List.cons_append, takeDigits, if_pos (h c (List.mem_cons_self c t)),
      ih fun d hd => h d (List.mem_cons_of_mem c hd)]

/-- Tokenization of a plain literal: past the digit prefix of
`ds ++ '.' :: fr` the remainder starts at the dot. -/
lemma dropDigits_append {ds : List Char} (fr : List Char) (h : allDigits ds) :
    dropDigits (ds ++ '.' :: fr) = '.' :: fr := by
  induction ds with
  | nil =>
    rw [List.nil_append, dropDigits, if_neg (by decide : ¬(isDigitChar '.' = true))]
  | cons c t ih =>
    rw [List.cons_append, dropDigits, if_pos (h c (List.mem_cons_self c t)),
      ih fun d hd => h d (List.mem_cons_of_mem c hd)]

/-- Characters of the grouped part are dots or group digits. -/
lemma mem_dotJoin {c : Char} : ∀ {gs : List (List Char)}, c ∈ dotJoin gs →
    c = '.' ∨ ∃ g ∈ gs, c ∈ g := by
  intro gs
  induction gs with
  | nil => intro h; exact absurd h (List.not_mem_nil c)
  | cons g gs' ih =>
    intro h
    rw [dotJoin] at h
    rcases List.mem_cons.mp h with h1 | h1
    · exact Or.inl h1
    · rcases List.mem_append.mp h1 with h2 | h2
      · exact Or.inr ⟨g, List.mem_cons_self g gs', h2⟩
      · rcases ih h2 with h3 | ⟨g', hg', hc⟩
        · exact Or.inl h3
        · exact Or.inr ⟨g', List.mem_cons_of_mem g hg', hc⟩

/-- The grouped part contains one dot per group. -/
lemma countCh_dotJoin_dot : ∀ {gs : List (List Char)}, (∀ g ∈ gs, allDigits g) →
    countCh (dotJoin gs) '.' = gs.length := by
  intro gs
  induction gs with
  | nil => intro _; rfl
  | cons g gs' ih =>
    intro h
    rw [dotJoin, countCh, if_pos rfl, countCh_append,
      countCh_zero fun c hc => (digit_char_facts (h g (List.mem_cons_self g gs') c hc)).1,
      ih fun g' hg' => h g' (List.mem_cons_of_mem g hg'), List.length_cons]
    omega

/-- Removing the dots from the grouped part concatenates the groups. -/
lemma removeCh_dotJoin_dot : ∀ {gs : List (List Char)}, (∀ g ∈ gs, allDigits g) →
    removeCh (dotJoin gs) '.' = catGroups gs := by
  intro gs
  induction gs with
  | nil => intro _; rfl
  | cons g gs' ih =>
    intro h
    rw [dotJoin, removeCh, if_pos rfl, removeCh_append,
      removeCh_id fun c hc => (digit_char_facts (h g (List.mem_cons_self g gs') c hc)).1,
      ih fun g' hg' => h g' (List.mem_cons_of_mem g hg'), catGroups]

/-- The concatenation of digit-only groups is digit-only. -/
lemma catGroups_digits : ∀ {gs : List (List Char)}, (∀ g ∈ gs, allDigits g) →
    allDigits (catGroups gs) := by
  intro gs
  induction gs with
  | nil => intro _ c hc; exact absurd hc (List.not_mem_nil c)
  | cons g gs' ih =>
    intro h c hc
    rcases List.mem_append.mp hc with h1 | h1
    · exact h g (List.mem_cons_self g gs') c h1
    · exact ih (fun g' hg' => h g' (List.mem_cons_of_mem g hg')) c h1

/-- Character classification for the optional `if`-sign part. -/
lemma signN_pred {P : Char → Prop} (neg : Bool) (hminus : P '-') :
    ∀ c ∈ (if neg then ['-'] else ([] : List Char)), P c := by
  intro c hc
  cases neg
  · simp at hc
  · simp at hc
    subst hc
    exact hminus

/-- Character classification for the rendered sign. -/
lemma sign_pred {P : Char → Prop} (neg plus : Bool) (hminus : P '-') (hplus : P '+') :
    ∀ c ∈ signRender neg plus, P c := by
  intro c hc
  rw [signRender] at hc
  split_ifs at hc
  · rw [List.mem_singleton] at hc; subst hc; exact hminus
  · rw [List.mem_singleton] at hc; subst hc; exact hplus
  · exact absurd hc (List.not_mem_nil c)

/-- Character classification for the unsigned part of a rendered German
amount: every character is a digit, the dot, or the comma. -/
lemma rest_pred {P : Char → Prop} {g0 frac : List Char} {gs : List (List Char)}
    (hg0 : allDigits g0) (hgs : ∀ g ∈ gs, allDigits g) (hfrac : allDigits frac)
    (hdig : ∀ c, isDigitChar c = true → P c) (hdot : P '.') (hcom : P ',') :
    ∀ c ∈ g0 ++ dotJoin gs ++ ',' :: frac, P c := by
  intro c hc
  simp only [List.mem_append, List.mem_cons] at hc
  rcases hc with (hg | hd) | hcm | hf
  · exact hdig c (hg0 c hg)
  · rcases mem_dotJoin hd with h1 | ⟨g, hgmem, hcg⟩
    · subst h1; exact hdot
    · exact hdig c (hgs g hgmem c hcg)
  · subst hcm; exact hcom
  · exact hdig c (hfrac c hf)

/-- Character classification for the whole rendered amount before the `EUR`
marker. -/
lemma full_pred {P : Char → Prop} {g0 frac : List Char} {gs : List (List Char)}
    (neg plus : Bool)
    (hg0 : allDigits g0) (hgs : ∀ g ∈ gs, allDigits g) (hfrac : allDigits frac)
    (hdig : ∀ c, isDigitChar c = true → P c) (hdot : P '.') (hcom : P ',')
    (hminus : P '-') (hplus : P '+') :
    ∀ c ∈ signRender neg plus ++ g0 ++ dotJoin gs ++ ',' :: frac, P c := by
  intro c hc
  simp only [List.mem_append, List.mem_cons] at hc
  rcases hc with ((hs | hg) | hd) | hcm | hf
  · exact sign_pred neg plus hminus hplus c hs
  · exact hdig c (hg0 c hg)
  · rcases mem_dotJoin hd with h1 | ⟨g, hgmem, hcg⟩
    · subst h1; exact hdot
    · exact hdig c (hgs g hgmem c hcg)
  · subst hcm; exact hcom
  · exact hdig c (hfrac c hf)

/-- The cleaning stage of the normalizer turns a rendered German amount into
its sign-and-digits core: the `EUR` marker, a `'+'` sign and spaces are
removed, a `'-'` sign and everything else are kept. -/
lemma cleanAmount_german (neg plus eur : Bool) (g0 : List Char)
    (gs : List (List Char)) (frac : List Char)
    (hg0 : allDigits g0) (hgs : ∀ g ∈ gs, allDigits g) (hfrac : allDigits frac) :
    cleanAmount (germanRender neg plus eur g0 gs frac)
      = (if neg then ['-'] else []) ++ g0 ++ dotJoin gs ++ ',' :: frac := by
  have hE : ∀ c ∈ signRender neg plus ++ g0 ++ dotJoin gs ++ ',' :: frac, c ≠ 'E' :=
    full_pred neg plus hg0 hgs hfrac (fun c h => (digit_char_facts h).2.2.2.2.1)
      (by decide) (by decide) (by decide) (by decide)
  have hS : ∀ c ∈ signRender neg plus ++ g0 ++ dotJoin gs ++ ',' :: frac,
      isPySpace c = false :=
    full_pred neg plus hg0 hgs hfrac (fun c h => (digit_char_facts h).2.2.2.2.2)
      (by decide) (by decide) (by decide) (by decide)
  have hrep : replaceEUR (germanRender neg plus eur g0 gs frac)
      = signRender neg plus ++ g0 ++ dotJoin gs ++ ',' :: frac := by
    rw [germanRender]
    cases eur
    · rw [if_neg (by simp), List.append_nil]
      exact replaceEUR_id hE
    · rw [if_pos rfl]
      exact replaceEUR_append_eur hE
  have hsign1 : removeCh (signRender neg plus) '+' = (if neg then ['-'] else []) := by
    rw [signRender]; cases neg <;> cases plus <;> decide
  have hsign2 : removeCh (if neg then ['-'] else ([] : List Char)) ' '
      = (if neg then ['-'] else []) := by
    cases neg <;> decide
  have hg0p : removeCh g0 '+' = g0 :=
    removeCh_id fun c hc => (digit_char_facts (hg0 c hc)).2.2.1
  have hg0s : removeCh g0 ' ' = g0 :=
    removeCh_id fun c hc hx => by
      subst hx; exact absurd (hg0 _ hc) (by decide)
  have hdjp : removeCh (dotJoin gs) '+' = dotJoin gs := by
    refine removeCh_id fun c hc => ?_
    rcases mem_dotJoin hc with h | ⟨g, hg, hcg⟩
    · subst h; decide
    · exact (digit_char_facts (hgs g hg c hcg)).2.2.1
  have hdjs : removeCh (dotJoin gs) ' ' = dotJoin gs := by
    refine removeCh_id fun c hc => ?_
    rcases mem_dotJoin hc with h | ⟨g, hg, hcg⟩
    · subst h; decide
    · intro hx
      subst hx
      exact absurd (hgs g hg _ hcg) (by decide)
  have hcfp : removeCh (',' :: frac) '+' = ',' :: frac := by
    rw [removeCh, if_neg (by decide : ¬(',' = '+')),
      removeCh_id fun c hc => (digit_char_facts (hfrac c hc)).2.2.1]
  have hcfs : removeCh (',' :: frac) ' ' = ',' :: frac := by
    rw [removeCh, if_neg (by decide : ¬(',' = ' '))]
    rw [removeCh_id fun c hc hx => by subst hx; exact absurd (hfrac _ hc) (by decide)]
  rw [cleanAmount, hrep, stripWS_id hS]
  simp only [removeCh_append, hsign1, hg0p, hdjp, hcfp, hsign2, hg0s, hdjs, hcfs]

/-- Shared computation for the German branches of the format detection:
removing the grouping dots and turning the comma into a decimal point yields
the American-style literal. -/
lemma german_strip (neg : Bool) (g0 : List Char) (gs : List (List Char)) (frac : List Char)
    (hg0 : allDigits g0) (hgs : ∀ g ∈ gs, allDigits g) (hfrac : allDigits frac) :
    mapCommaDot (removeCh ((if neg then ['-'] else []) ++ g0 ++ dotJoin gs ++ ',' :: frac) '.')
      = (if neg then ['-'] else []) ++ (g0 ++ catGroups gs) ++ '.' :: frac := by
  have h1 : removeCh (if neg then ['-'] else ([] : List Char)) '.'
      = (if neg then ['-'] else []) := by cases neg <;> decide
  have h2 : removeCh g0 '.' = g0 :=
    removeCh_id fun c hc => (digit_char_facts (hg0 c hc)).1
  have h3 := removeCh_dotJoin_dot hgs
  have h4 : removeCh (',' :: frac) '.' = ',' :: frac := by
    rw [removeCh, if_neg (by decide : ¬(',' = '.')),
      removeCh_id fun c hc => (digit_char_facts (hfrac c hc)).1]
  have h5 : mapCommaDot (if neg then ['-'] else ([] : List Char))
      = (if neg then ['-'] else []) := by cases neg <;> decide
  have h6 : mapCommaDot g0 = g0 :=
    mapCommaDot_id fun c hc => (digit_char_facts (hg0 c hc)).2.1
  have h7 : mapCommaDot (catGroups gs) = catGroups gs :=
    mapCommaDot_id fun c hc => (digit_char_facts (catGroups_digits hgs c hc)).2.1
  have h8 : mapCommaDot (',' :: frac) = '.' :: frac := by
    rw [mapCommaDot, if_pos rfl,
      mapCommaDot_id fun c hc => (digit_char_facts (hfrac c hc)).2.1]
  simp only [removeCh_append, h1, h2, h3, h4, mapCommaDot_append, h5, h6, h7, h8]
  simp [List.append_assoc]

/-- The comma count of the core of a rendered German amount is one. -/
lemma count_comma_core (neg : Bool) (g0 : List Char) (gs : List (List Char)) (frac : List Char)
    (hg0 : allDigits g0) (hgs : ∀ g ∈ gs, allDigits g) (hfrac : allDigits frac) :
    countCh ((if neg then ['-'] else []) ++ g0 ++ dotJoin gs ++ ',' :: frac) ',' = 1 := by
  have h1 : countCh (if neg then ['-'] else ([] : List Char)) ',' = 0 := by
    cases neg <;> decide
  have h2 : countCh g0 ',' = 0 :=
    countCh_zero fun c hc => (digit_char_facts (hg0 c hc)).2.1
  have h3 : countCh (dotJoin gs) ',' = 0 := countCh_zero fun c hc => by
    rcases mem_dotJoin hc with h | ⟨g, hg, hcg⟩
    · subst h; decide
    · exact (digit_char_facts (hgs g hg c hcg)).2.1
  have h4 : countCh (',' :: frac) ',' = 1 := by
    rw [countCh, if_pos rfl,
      countCh_zero fun c hc => (digit_char_facts (hfrac c hc)).2.1]
  simp only [countCh_append, h1, h2, h3, h4]

/-- The dot count of the core of a rendered German amount is the number of
grouping separators. -/
lemma count_dot_core (neg : Bool) (g0 : List Char) (gs : List (List Char)) (frac : List Char)
    (hg0 : allDigits g0) (hgs : ∀ g ∈ gs, allDigits g) (hfrac : allDigits frac) :
    countCh ((if neg then ['-'] else []) ++ g0 ++ dotJoin gs ++ ',' :: frac) '.' = gs.length := by
  have h1 : countCh (if neg then ['-'] else ([] : List Char)) '.' = 0 := by
    cases neg <;> decide
  have h2 : countCh g0 '.' = 0 :=
    countCh_zero fun c hc => (digit_char_facts (hg0 c hc)).1
  have h3 := countCh_dotJoin_dot hgs
  have h4 : countCh (',' :: frac) '.' = 0 := by
    rw [countCh, if_neg (by decide : ¬(',' = '.')),
      countCh_zero fun c hc => (digit_char_facts (hfrac c hc)).1]
  simp only [countCh_append, h1, h2, h3, h4]
  omega

/-- The format auto-detection recognizes every rendered German core (any
number of grouping separators) and rewrites it into the American-style
literal: grouping dots removed, comma turned into the decimal point. -/
lemma transform_german (neg : Bool) (g0 : List Char) (gs : List (List Char)) (frac : List Char)
    (hg0 : allDigits g0) (hgs : ∀ g ∈ gs, allDigits g) (hfrac : allDigits frac) :
    transformAmount ((if neg then ['-'] else []) ++ g0 ++ dotJoin gs ++ ',' :: frac)
      = (if neg then ['-'] else []) ++ (g0 ++ catGroups gs) ++ '.' :: frac := by
  cases gs with
  | nil =>
    have hc := count_comma_core neg g0 [] frac hg0 hgs hfrac
    have hd := count_dot_core neg g0 [] frac hg0 hgs hfrac
    rw [List.length_nil] at hd
    unfold transformAmount
    rw [hc, hd]
    rw [if_pos (by norm_num : (1 : ℕ) = 1 ∧ (0 : ℕ) ≤ 1)]
    rw [if_neg (by norm_num : ¬((0 : ℕ) = 1))]
    have hm1 : mapCommaDot (if neg then ['-'] else ([] : List Char))
        = (if neg then ['-'] else []) := by cases neg <;> decide
    have hm2 : mapCommaDot g0 = g0 :=
      mapCommaDot_id fun c hcm => (digit_char_facts (hg0 c hcm)).2.1
    have hm3 : mapCommaDot (',' :: frac) = '.' :: frac := by
      rw [mapCommaDot, if_pos rfl,
        mapCommaDot_id fun c hcm => (digit_char_facts (hfrac c hcm)).2.1]
    simp only [dotJoin, catGroups, List.append_nil, mapCommaDot_append, hm1, hm2, hm3]
  | cons g gs' =>
    cases gs' with
    | nil =>
      have hc := count_comma_core neg g0 [g] frac hg0 hgs hfrac
      have hd := count_dot_core neg g0 [g] frac hg0 hgs hfrac
      have hd1 : countCh ((if neg then ['-'] else []) ++ g0 ++ dotJoin [g] ++ ',' :: frac) '.'
          = 1 := by rw [hd]; rfl
      have hpre_dot : ∀ c ∈ (if neg then ['-'] else ([] : List Char)) ++ g0, c ≠ '.' := by
        intro c hcm
        rcases List.mem_append.mp hcm with h | h
        · exact signN_pred (P := fun x => x ≠ '.') neg (by decide) c h
        · exact (digit_char_facts (hg0 c h)).1
      have hpre_com : ∀ c ∈ (if neg then ['-'] else ([] : List Char)) ++ g0, c ≠ ',' := by
        intro c hcm
        rcases List.mem_append.mp hcm with h | h
        · exact signN_pred (P := fun x => x ≠ ',') neg (by decide) c h
        · exact (digit_char_facts (hg0 c h)).2.1
      have hidx : idxOf1 ((if neg then ['-'] else []) ++ g0 ++ dotJoin [g] ++ ',' :: frac) '.'
          < idxOf1 ((if neg then ['-'] else []) ++ g0 ++ dotJoin [g] ++ ',' :: frac) ',' := by
        rw [List.append_assoc ((if neg then ['-'] else []) ++ g0) (dotJoin [g]) (',' :: frac)]
        rw [idxOf1_append '.' _ _ hpre_dot, idxOf1_append ',' _ _ hpre_com]
        have hsfx : dotJoin [g] ++ ',' :: frac = '.' :: (g ++ ',' :: frac) := by
          simp [dotJoin]
        rw [hsfx]
        have e1 : idxOf1 ('.' :: (g ++ ',' :: frac)) '.' = 0 := by
          simp [idxOf1]
        have e2 : idxOf1 ('.' :: (g ++ ',' :: frac)) ','
            = idxOf1 (g ++ ',' :: frac) ',' + 1 := by
          simp [idxOf1]
        rw [e1, e2]
        omega
      unfold transformAmount
      rw [hc, hd1]
      rw [if_pos (by norm_num : (1 : ℕ) = 1 ∧ (1 : ℕ) ≤ 1)]
      rw [if_pos rfl]
      rw [if_pos hidx]
      exact german_strip neg g0 [g] frac hg0 hgs hfrac
    | cons g2 gs'' =>
      have hc := count_comma_core neg g0 (g :: g2 :: gs'') frac hg0 hgs hfrac
      have hd := count_dot_core neg g0 (g :: g2 :: gs'') frac hg0 hgs hfrac
      unfold transformAmount
      rw [hc, hd]
      rw [if_neg (by simp only [List.length_cons]; omega :
        ¬((1 : ℕ) = 1 ∧ (g :: g2 :: gs'').length ≤ 1))]
      rw [if_neg (by norm_num : ¬((g :: g2 :: gs'').length = 1 ∧ (1 : ℕ) = 0))]
      rw [if_pos (by simp only [List.length_cons]; omega : 1 < (g :: g2 :: gs'').length)]
      exact german_strip neg g0 (g :: g2 :: gs'') frac hg0 hgs hfrac

/-- Parsing the unsigned American-style literal built from integer digits and
fractional digits yields its exact decimal value. -/
lemma parseUnsignedDec_plain (ds frac : List Char) (hds : allDigits ds) (hne : ds ≠ [])
    (hfrac : allDigits frac) :
    parseUnsignedDec (ds ++ '.' :: frac)
      = some ((natVal ds : ℚ) + (natVal frac : ℚ) / 10 ^ frac.length) := by
  rw [parseUnsignedDec, takeDigits_append frac hds, dropDigits_append frac hds]
  show (if '.' = '.' ∧ (∀ d ∈ frac, isDigitChar d = true) ∧ ¬(ds = [] ∧ frac = []) then
      some ((natVal ds : ℚ) + (natVal frac : ℚ) / 10 ^ frac.length) else none)
    = some ((natVal ds : ℚ) + (natVal frac : ℚ) / 10 ^ frac.length)
  rw [if_pos ⟨rfl, hfrac, fun hx => hne hx.1⟩]

/-- Parsing the signed American-style literal yields its exact decimal
value. -/
lemma parseDec_plain (neg : Bool) (ds frac : List Char) (hds : allDigits ds) (hne : ds ≠ [])
    (hfrac : allDigits frac) :
    parseDec (americanRender neg ds frac) = some (decValue neg ds frac) := by
  cases neg with
  | true =>
    rw [americanRender, if_pos rfl, List.append_assoc, List.singleton_append]
    show (if ('-' : Char) = '-' then
        Option.map (fun q : ℚ => -q) (parseUnsignedDec (ds ++ '.' :: frac))
      else if ('-' : Char) = '+' then parseUnsignedDec (ds ++ '.' :: frac)
      else parseUnsignedDec ('-' :: (ds ++ '.' :: frac))) = some (decValue true ds frac)
    rw [if_pos rfl, parseUnsignedDec_plain ds frac hds hne hfrac]
    rw [Option.map_some']
    refine congrArg some ?_
    rw [decValue, if_pos rfl]
    ring
  | false =>
    cases ds with
    | nil => exact absurd rfl hne
    | cons d t =>
      have hd := hds d (List.mem_cons_self d t)
      rw [americanRender, if_neg (by simp), List.nil_append, List.cons_append]
      show (if d = '-' then
          Option.map (fun q : ℚ => -q) (parseUnsignedDec (t ++ '.' :: frac))
        else if d = '+' then parseUnsignedDec (t ++ '.' :: frac)
        else parseUnsignedDec (d :: (t ++ '.' :: frac))) = some (decValue false (d :: t) frac)
      rw [if_neg (fun hx => (digit_char_facts hd).2.2.2.1 hx),
        if_neg (fun hx => (digit_char_facts hd).2.2.1 hx)]
      rw [← List.cons_append, parseUnsignedDec_plain (d :: t) frac hds hne hfrac]
      refine congrArg some ?_
      rw [decValue, if_neg (by simp)]
      ring

/-- Claim C2: for every monetary string in German grouping format — optional
leading sign (`'-'` or an explicit `'+'`), a leading digit group, further
three-digit groups separated by `'.'`, the decimal separator `','`, fractional
digits, and an optional trailing `EUR` marker — the normalizer
`parse_german_amount` returns exactly the decimal value denoted by the
corresponding American-style literal (all integer digits, `'.'` as decimal
point), as witnessed by the literal's own parse. -/
theorem parse_german_matches_american (neg plus eur : Bool) (g0 : List Char)
    (gs : List (List Char)) (frac : List Char)
    (hg0 : g0 ≠ [] ∧ allDigits g0)
    (hgs : ∀ g ∈ gs, g.length = 3 ∧ allDigits g)
    (hfrac : allDigits frac) :
    parse_german_amount (germanRender neg plus eur g0 gs frac)
        = decValue neg (g0 ++ catGroups gs) frac ∧
    parseDec (americanRender neg (g0 ++ catGroups gs) frac)
        = some (decValue neg (g0 ++ catGroups gs) frac) := by
  obtain ⟨hne, hg0d⟩ := hg0
  have hgs' : ∀ g ∈ gs, allDigits g := fun g hg => (hgs g hg).2
  have hds : allDigits (g0 ++ catGroups gs) := by
    intro c hcm
    rcases List.mem_append.mp hcm with h | h
    · exact hg0d c h
    · exact catGroups_digits hgs' c h
  have hdsne : g0 ++ catGroups gs ≠ [] := by
    intro hx
    exact hne (List.append_eq_nil.mp hx).1
  have hp := parseDec_plain neg (g0 ++ catGroups gs) frac hds hdsne hfrac
  refine ⟨?_, hp⟩
  rw [parse_german_amount, cleanAmount_german neg plus eur g0 gs frac hg0d hgs' hfrac,
    transform_german neg g0 gs frac hg0d hgs' hfrac]
  rw [show (if neg then ['-'] else []) ++ (g0 ++ catGroups gs) ++ '.' :: frac
      = americanRender neg (g0 ++ catGroups gs) frac from rfl]
  rw [hp]
  rfl

/-- Witness for C2 on the spec's running example `"-101.046,00EUR"`. -/
theorem parse_german_matches_american_witness :
    parse_german_amount
        (germanRender true false true ['1', '0', '1'] [['0', '4', '6']] ['0', '0'])
      = decValue true (['1', '0', '1'] ++ catGroups [['0', '4', '6']]) ['0', '0'] ∧
    parseDec (americanRender true (['1', '0', '1'] ++ catGroups [['0', '4', '6']]) ['0', '0'])
      = some (decValue true (['1', '0', '1'] ++ catGroups [['0', '4', '6']]) ['0', '0']) :=
  parse_german_matches_american true false true ['1', '0', '1'] [['0', '4', '6']] ['0', '0']
    ⟨by decide, by simp only [allDigits]; decide⟩
    (by simp only [allDigits]; decide) (by simp only [allDigits]; decide)
